import Mathlib

/-!
# staply/storage: file persistence and thumbnail derivation

A shallow embedding of `storage/app/service.go` (`SaveFile`, `Resize`,
`getSavePath`, `checkMimeType`) and of `storage/app/file.go` (`File`).

The service talks to three collaborators that are not part of the repository:
the storage substrate (`afero.Fs`), the Go image codecs (`image.Decode`,
`png.Encode`, `jpeg.Encode`) and the resize library (`resize.Thumbnail`).
The substrate is modelled as an in-memory path-keyed store with fault
injection; the codecs are capabilities passed as a parameter.
-/

namespace Staply

/-! ## Basic data -/

/-- A byte of file content. -/
abbrev Byte := Fin 256

/-- A Go `error` value, identified by its message (`errors.New(msg)`). -/
abbrev GoError := String

/-- An `io.Reader`: the bytes not read yet, followed either by the end of the
stream (`fault = none`) or by a read error. -/
structure Reader where
  pending : List Byte
  fault : Option GoError
deriving DecidableEq, Repr

/-- The struct `File` of file.go.  The Go field `Type` is spelled `Type_`
(`Type` is reserved in Lean); `Content` holds the state of the reader. -/
structure File where
  Name : String
  Size : Int
  Type_ : String
  Content : Reader
deriving DecidableEq, Repr

/-! ## Storage substrate

Modelled after `afero.MemMapFs`, the substrate the tests run against: a store
of byte sequences keyed by path.  Two fault sources are part of the state so
that failing substrates can be described: paths whose open fails, and a bound
on the number of bytes the substrate still accepts.  A path is the string
handed to the substrate: two spellings of one path are two keys here, so
nothing is said about paths that alias each other. -/

/-- State of the storage substrate. -/
structure Fs where
  files : List (String × List Byte)
  denied : List (String × GoError)
  room : Option (Nat × GoError)
deriving DecidableEq, Repr

/-- A file opened for writing: its path and the current write offset. -/
structure Handle where
  name : String
  offset : Nat
deriving DecidableEq, Repr

/-- Content stored under a path, if any. -/
def lookupFile : List (String × List Byte) → String → Option (List Byte)
  | [], _ => none
  | (k, v) :: rest, p => if k = p then some v else lookupFile rest p

/-- Replace the content stored under a path, adding the path when absent. -/
def putFile : List (String × List Byte) → String → List Byte → List (String × List Byte)
  | [], p, d => [(p, d)]
  | (k, v) :: rest, p, d => if k = p then (k, d) :: rest else (k, v) :: putFile rest p d

/-- Error with which opening a path is refused, if it is. -/
def lookupDenied : List (String × GoError) → String → Option GoError
  | [], _ => none
  | (k, e) :: rest, p => if k = p then some e else lookupDenied rest p

/-- Reading a whole file (`afero.ReadFile`): `none` when the path does not exist. -/
def Fs.ReadFile (fs : Fs) (path : String) : Option (List Byte) :=
  lookupFile fs.files path

/-- Whether a path exists (`fs.Stat` succeeds). -/
def Fs.Exists (fs : Fs) (path : String) : Bool :=
  (lookupFile fs.files path).isSome

/-- Flag `os.O_WRONLY`. -/
def O_WRONLY : Nat := 0x1
/-- Flag `os.O_RDWR`. -/
def O_RDWR : Nat := 0x2
/-- Flag `os.O_CREATE`. -/
def O_CREATE : Nat := 0x40
/-- Flag `os.O_EXCL`. -/
def O_EXCL : Nat := 0x80
/-- Flag `os.O_TRUNC`. -/
def O_TRUNC : Nat := 0x200
/-- Flag `os.O_APPEND`. -/
def O_APPEND : Nat := 0x400

/-- Modelled from the spec: the storage substrate (`afero.Fs`) is a library
outside the repository; the spec describes it as a path-keyed write/read interface whose open
returns "writable stream | error".  `OpenFile` follows the documented meaning
of the `os` flags: `O_CREATE` creates a missing file empty, `O_EXCL` refuses an
existing one, `O_TRUNC` empties a file opened for writing, `O_APPEND` starts
at the end; otherwise an existing file keeps its content and writing starts at
offset 0.  A refused open leaves the state as it was.  The permission bits are
not modelled. -/
def Fs.OpenFile (fs : Fs) (name : String) (flag : Nat) (_perm : Nat) :
    Except GoError (Fs × Handle) :=
  match lookupDenied fs.denied name with
  | some e => .error e
  | none =>
    match lookupFile fs.files name with
    | none =>
      if flag &&& O_CREATE ≠ 0 then
        .ok ({ fs with files := putFile fs.files name [] }, ⟨name, 0⟩)
      else .error "file does not exist"
    | some data =>
      if flag &&& O_EXCL ≠ 0 then .error "file already exists"
      else if flag &&& O_TRUNC ≠ 0 ∧ flag &&& (O_RDWR ||| O_WRONLY) ≠ 0 then
        .ok ({ fs with files := putFile fs.files name [] }, ⟨name, 0⟩)
      else if flag &&& O_APPEND ≠ 0 then .ok (fs, ⟨name, data.length⟩)
      else .ok (fs, ⟨name, 0⟩)

/-- Bytes of a file after writing `b` at offset `off`: the bytes before the
offset stay (zero-filled up to the offset when the file is shorter), `b`
replaces what was there, the bytes after `off + |b|` stay. -/
def writeAt (old : List Byte) (off : Nat) (b : List Byte) : List Byte :=
  old.take off ++ List.replicate (off - old.length) 0 ++ b ++ old.drop (off + b.length)

/-- Result of one `Write` call. -/
structure WriteOut where
  fs : Fs
  file : Handle
  n : Nat
  err : Option GoError
deriving DecidableEq, Repr

/-- Number of bytes of a request of `len` bytes the substrate accepts. -/
def accepted (room : Option (Nat × GoError)) (len : Nat) : Nat :=
  match room with
  | none => len
  | some (k, _) => min k len

/-- Error of a write of `len` bytes, if the substrate cannot take all of them. -/
def writeError (room : Option (Nat × GoError)) (len : Nat) : Option GoError :=
  match room with
  | none => none
  | some (k, e) => if k < len then some e else none

/-- Room left after `n` bytes were accepted. -/
def roomAfter (room : Option (Nat × GoError)) (n : Nat) : Option (Nat × GoError) :=
  match room with
  | none => none
  | some (k, e) => some (k - n, e)

/-- Modelled from the spec: `Write` on an open file of the substrate (a
library outside the repository).  The accepted bytes are written at the
offset of the handle, which advances by their number; when the substrate
cannot take all bytes, the accepted part stays written and the error is
returned ("partial writes possible and not rolled back"). -/
def Fs.Write (fs : Fs) (h : Handle) (b : List Byte) : WriteOut :=
  match lookupFile fs.files h.name with
  | none => ⟨fs, h, 0, some "file does not exist"⟩
  | some old =>
    let n := accepted fs.room b.length
    ⟨{ fs with files := putFile fs.files h.name (writeAt old h.offset (b.take n)),
               room := roomAfter fs.room n },
     { h with offset := h.offset + n }, n, writeError fs.room b.length⟩

/-- Result of `io.Copy`. -/
structure CopyOut where
  fs : Fs
  dst : Handle
  src : Reader
  written : Nat
  err : Option GoError
deriving DecidableEq, Repr

/-- The call `io.Copy(dst, src)`: everything the reader still holds is written
to `dst`; the first error met (of the write, else of the reader) is returned,
the end of the stream is not an error.  Nothing is written for an exhausted
reader. -/
def ioCopy (fs : Fs) (dst : Handle) (src : Reader) : CopyOut :=
  if src.pending = [] then ⟨fs, dst, src, 0, src.fault⟩
  else
    let w := fs.Write dst src.pending
    match w.err with
    | some e => ⟨w.fs, w.file, { src with pending := src.pending.drop w.n }, w.n, some e⟩
    | none => ⟨w.fs, w.file, { src with pending := [] }, w.n, src.fault⟩

/-! ## service.go -/

/-- The function `checkMimeType` of service.go. -/
def checkMimeType (mimeType : String) : Bool :=
  match mimeType with
  | "image/jpeg" | "image/jpg" => true
  | "image/png" => true
  | _ => false

/-- The function `getSavePath` of service.go: `fmt.Sprintf("/images/%s", name)`. -/
def getSavePath (name : String) : String :=
  "/images/" ++ name

/-- Result of `SaveFile`: the Go pair `(string, error)`, with the substrate and
the content reader as the call leaves them. -/
structure SaveOut where
  fs : Fs
  content : Reader
  path : String
  err : Option GoError
deriving DecidableEq, Repr

/-- The method `service.SaveFile` of service.go. -/
def SaveFile (fs : Fs) (file : File) : SaveOut :=
  if !checkMimeType file.Type_ then
    ⟨fs, file.Content, "", some "wrong mime type"⟩
  else
    let path := getSavePath file.Name
    match fs.OpenFile path (O_WRONLY ||| O_CREATE) 0o666 with
    | .error err => ⟨fs, file.Content, "", some err⟩
    | .ok (fs1, to_) =>
      let c := ioCopy fs1 to_ file.Content
      match c.err with
      | some err => ⟨c.fs, c.src, "", some err⟩
      | none => ⟨c.fs, c.src, path, none⟩

/-! ## Image capabilities -/

/-- A decoded raster image: its bounds and its pixel data.  The service never
looks at the pixels. -/
structure Image where
  width : Nat
  height : Nat
  pix : List Byte
deriving DecidableEq, Repr

/-- The image codec capability used by `Resize`.
* `decode` is `image.Decode`: the image and the name of the detected format,
  or an error;
* `resample w h img` is the pixel data of `img` resampled to `w` by `h`
  (Lanczos3 in the service);
* `encodePNG` and `encodeJPEG` are `png.Encode` and `jpeg.Encode` on a fresh
  buffer: the bytes written to the buffer and the returned error. -/
structure Codec where
  decode : Reader → Except GoError (Image × String)
  resample : Nat → Nat → Image → List Byte
  encodePNG : Image → List Byte × Option GoError
  encodeJPEG : Image → List Byte × Option GoError

/-- Modelled from the spec: the size computed by the resize capability
(`resize.Thumbnail` of the library nfnt/resize, outside the repository) for a
source of `w` by `h` and the bounding box `maxW` by `maxH`: "bounded to
100x100 units, preserving the source aspect ratio, never upscaling beyond the
source's native size".  A source inside the box keeps its size; otherwise the
width is brought down to `maxW` and then, if still needed, the height down to
`maxH`, the other side following in proportion, rounded down but never below
1. -/
def thumbnailSize (maxW maxH w h : Nat) : Nat × Nat :=
  if w ≤ maxW ∧ h ≤ maxH then (w, h)
  else
    let s1 : Nat × Nat := if maxW < w then (maxW, max 1 (h * maxW / w)) else (w, h)
    if maxH < s1.2 then (max 1 (s1.1 * maxH / s1.2), maxH) else s1

/-- Modelled from the spec: the scaling behind the resize capability
(`resize.Resize` of the library nfnt/resize, outside the repository) to a
target size without a zero side: an image that has the target size already,
and an image without pixels, is returned as it is; any other image is
resampled to the target size. -/
def resizeImage (c : Codec) (width height : Nat) (img : Image) : Image :=
  if width = img.width ∧ height = img.height then img
  else if img.width = 0 ∨ img.height = 0 then img
  else ⟨width, height, c.resample width height img⟩

/-- Modelled from the spec: the resize capability
"resizeToBoundingBox(image, maxW, maxH) -> image" (`resize.Thumbnail`, outside
the repository).  An image inside the box is returned as it is; any other
image is scaled to `thumbnailSize`.  The step has no error result. -/
def Thumbnail (c : Codec) (maxW maxH : Nat) (img : Image) : Image :=
  if img.width ≤ maxW ∧ img.height ≤ maxH then img
  else
    let s := thumbnailSize maxW maxH img.width img.height
    resizeImage c s.1 s.2 img

/-- A thumbnail of `w2` by `h2` is the source of `w` by `h` scaled to the box
`maxW` by `maxH` with its proportions kept within rounding: one side is the
side of the box and the other side is less than one unit away from the exact
proportional value. -/
def scaledToBox (maxW maxH w h w2 h2 : Nat) : Prop :=
  (w2 = maxW ∧ h2 * w < maxW * h + w ∧ maxW * h < h2 * w + w) ∨
  (h2 = maxH ∧ w2 * h < maxH * w + h ∧ maxH * w < w2 * h + h)

/-- Result of `Resize`: the Go pair `(string, error)` and the substrate as the
call leaves it. -/
structure ResizeOut where
  fs : Fs
  path : String
  err : Option GoError
deriving DecidableEq, Repr

/-- The `switch file.Type` of `Resize`: the content of `buff` after the chosen
encoder ran (its error result is dropped by the service), or `none` in the
`default` case. -/
def encodeBuffer (c : Codec) (type_ : String) (thumbnail : Image) : Option (List Byte) :=
  match type_ with
  | "image/png" => some (c.encodePNG thumbnail).1
  | "image/jpg" | "image/jpeg" => some (c.encodeJPEG thumbnail).1
  | _ => none

/-- The method `service.Resize` of service.go. -/
def Resize (c : Codec) (fs : Fs) (file : File) : ResizeOut :=
  match c.decode file.Content with
  | .error err => ⟨fs, "", some err⟩
  | .ok (img, _) =>
    let thumbnail := Thumbnail c 100 100 img
    match encodeBuffer c file.Type_ thumbnail with
    | none => ⟨fs, "", some "could not encode image"⟩
    | some buff =>
      if buff.length > 0 then
        let r := SaveFile fs
          { Name := "thumb_" ++ file.Name, Type_ := file.Type_,
            Content := ⟨buff, none⟩, Size := buff.length }
        match r.err with
        | some err => ⟨r.fs, "", some err⟩
        | none => ⟨r.fs, r.path, none⟩
      else ⟨fs, "", some "could not resize image"⟩

/-! ## Sample inputs -/

/-- The media types the spec lists as accepted. -/
def allowList : List String := ["image/jpeg", "image/jpg", "image/png"]

/-- An empty substrate that never fails. -/
def emptyFs : Fs := ⟨[], [], none⟩

/-- The file of `TestSaveFileSuccess`: the three bytes of "123". -/
def goodFile : File := ⟨"good.txt", 3, "image/png", ⟨[49, 50, 51], none⟩⟩

/-- The file of `TestSaveFileFail`. -/
def badFile : File := ⟨"bad", 3, "image/php", ⟨[49, 50, 51], none⟩⟩

/-- A first upload under the name "a.png": three bytes. -/
def firstUpload : File := ⟨"a.png", 3, "image/png", ⟨[1, 2, 3], none⟩⟩

/-- A second upload under the same name "a.png": one byte. -/
def secondUpload : File := ⟨"a.png", 1, "image/png", ⟨[9], none⟩⟩

/-- The format name reported for a magic byte by `sampleCodec`. -/
def sampleFormat (magic : Byte) : Option String :=
  if magic = 137 then some "png"
  else if magic = 255 then some "jpeg"
  else if magic = 71 then some "gif"
  else none

/-- A small codec for concrete runs.  A stream is an image when it starts with
a known magic byte (137 png, 255 jpeg, 71 gif) followed by a width byte and a
height byte; the rest are pixels.  The PNG encoder refuses an image without
pixels, as `png.Encode` does ("invalid image size"), before writing anything. -/
def sampleCodec : Codec where
  decode := fun r =>
    match r.pending with
    | magic :: w :: h :: pix =>
      match sampleFormat magic with
      | some fmt => .ok (⟨w.val, h.val, pix⟩, fmt)
      | none => .error "image: unknown format"
    | _ => .error "image: unknown format"
  resample := fun w h img => img.pix.take (w * h)
  encodePNG := fun img =>
    if img.width = 0 ∨ img.height = 0 then ([], some "png: invalid format: invalid image size")
    else (137 :: Fin.ofNat img.width :: Fin.ofNat img.height :: img.pix, none)
  encodeJPEG := fun img =>
    (255 :: Fin.ofNat img.width :: Fin.ofNat img.height :: img.pix, none)

/-- An upload "test.png" declared image/png: a 200 by 50 png with three pixel bytes. -/
def pngFile : File := ⟨"test.png", 6, "image/png", ⟨[137, 200, 50, 1, 2, 3], none⟩⟩

/-- An upload whose bytes are no image ("123"), declared image/png. -/
def textFile : File := ⟨"notes.png", 3, "image/png", ⟨[49, 50, 51], none⟩⟩

/-- A gif of 200 by 50 uploaded with the declared type image/gif. -/
def gifFile : File := ⟨"anim.gif", 6, "image/gif", ⟨[71, 200, 50, 1, 2, 3], none⟩⟩

/-- A gif without pixels (5 by 0) uploaded with the declared type image/png. -/
def flatFile : File := ⟨"flat.png", 3, "image/png", ⟨[71, 5, 0], none⟩⟩

/-- A gif without pixels (200 by 0) uploaded with the declared type image/jpeg. -/
def wideFlatFile : File := ⟨"flat.jpg", 3, "image/jpeg", ⟨[71, 200, 0], none⟩⟩

/-- An empty substrate that accepts one more byte and then fails every write. -/
def tightFs : Fs := ⟨[], [], some (1, "no space left on device")⟩

/-- The file `Resize` hands to `SaveFile`: the encoded buffer under the name
"thumb_" followed by the name, with the declared type of the source. -/
def thumbFile (file : File) (buff : List Byte) : File :=
  { Name := "thumb_" ++ file.Name, Type_ := file.Type_,
    Content := ⟨buff, none⟩, Size := buff.length }

/-- The codec `c` with every detected format name replaced by `g` of it. -/
def relabelFormat (c : Codec) (g : String → String) : Codec :=
  { c with decode := fun r =>
      match c.decode r with
      | .error e => .error e
      | .ok (img, fmt) => .ok (img, g fmt) }

/-! ## router.go

The three upload handlers.  What gin, the HTTP client and the multipart and
JSON decoders hand to a handler is an argument of its model; the library
functions a handler calls on the way are the fields of `Web`.  A handler
returns the substrate as it leaves it and the one response it writes. -/

/-- The struct `FileDTO` of file.go. -/
structure FileDTO where
  Name : String
  Path : String
  Resize : String
deriving DecidableEq, Repr

/-- Body of a JSON response: the object with the one key "message", or the
list of `FileDTO`. -/
inductive Body where
  | message (mess : String)
  | paths (list : List FileDTO)
deriving DecidableEq, Repr

/-- A response written with `c.JSON(status, body)`. -/
structure Response where
  status : Nat
  body : Body
deriving DecidableEq, Repr

/-- The constant `http.StatusOK`. -/
def StatusOK : Nat := 200

/-- The constant `http.StatusBadRequest`. -/
def StatusBadRequest : Nat := 400

/-- The function `errorResponse` of router.go. -/
def errorResponse (mess : String) : Response :=
  ⟨StatusBadRequest, .message mess⟩

/-- Library functions called by the handlers: `http.DetectContentType`,
`html.UnescapeString`, `path.Base` and `base64.StdEncoding.DecodeString`. -/
structure Web where
  DetectContentType : List Byte → String
  UnescapeString : String → String
  Base : String → String
  DecodeString : String → Except GoError (List Byte)

/-- The call `ioutil.ReadAll(r)`: the bytes read until the end of the stream
or the first error, and that error. -/
def ReadAll (r : Reader) : List Byte × Option GoError :=
  (r.pending, r.fault)

/-- The call `bytes.NewReader(b)`. -/
def NewReader (b : List Byte) : Reader :=
  ⟨b, none⟩

/-- One entry of `form.File["images[]"]`: the name and size of the part, and
what `file.Open()` returns for it. -/
structure FileHeader where
  Filename : String
  Size : Int
  Open : Except GoError Reader

/-- The `for` loop of `upload`, from the substrate `fs`, over the files left,
with the entries collected so far; past the loop the handler writes them with
status 200. -/
def uploadLoop (env : Web) (c : Codec) :
    Fs → List FileHeader → List FileDTO → Fs × Response
  | fs, [], paths => (fs, ⟨StatusOK, .paths paths⟩)
  | fs, file :: rest, paths =>
    match file.Open with
    | .error err => (fs, errorResponse ("could not open file to read: " ++ err))
    | .ok reader =>
      match (ReadAll reader).2 with
      | some err => (fs, errorResponse ("could not read file: " ++ err))
      | none =>
        let b := (ReadAll reader).1
        let name := env.UnescapeString file.Filename
        let img := SaveFile fs
          { Name := name, Size := file.Size, Type_ := env.DetectContentType b,
            Content := NewReader b }
        match img.err with
        | some err => (img.fs, errorResponse ("could not save file: " ++ err))
        | none =>
          let resize := Resize c img.fs
            { Name := name, Size := file.Size, Type_ := env.DetectContentType b,
              Content := NewReader b }
          match resize.err with
          | some err => (resize.fs, errorResponse ("could not resize file: " ++ err))
          | none => uploadLoop env c resize.fs rest (paths ++ [⟨name, img.path, resize.path⟩])

/-- The handler `upload` of router.go; `form` is what `c.MultipartForm()`
returns, reduced to the files under "images[]". -/
def upload (env : Web) (c : Codec) (fs : Fs) (form : Except GoError (List FileHeader)) :
    Fs × Response :=
  match form with
  | .error err => (fs, errorResponse ("get form err: " ++ err))
  | .ok files => uploadLoop env c fs files []

/-- The handler `link` of router.go; `url` is the posted form value and `got`
is what `client.Get(url)` returns, reduced to the body of the response.  The
error of `ioutil.ReadAll` is overwritten unread, and so is the error of
`Service.Resize`: no `if err != nil` follows that call. -/
def link (env : Web) (c : Codec) (fs : Fs) (url : String) (got : Except GoError Reader) :
    Fs × Response :=
  match got with
  | .error err => (fs, errorResponse ("error downloading file: " ++ err))
  | .ok body =>
    let content := (ReadAll body).1
    let img := SaveFile fs
      { Name := env.Base url, Size := content.length,
        Type_ := env.DetectContentType content, Content := NewReader content }
    match img.err with
    | some err => (img.fs, errorResponse ("could not save file: " ++ err))
    | none =>
      let resize := Resize c img.fs
        { Name := env.Base url, Size := content.length,
          Type_ := env.DetectContentType content, Content := NewReader content }
      (resize.fs, ⟨StatusOK, .paths ([] ++ [⟨env.Base url, img.path, resize.path⟩])⟩)

/-- One element of the array bound by `json`. -/
structure JsonFile where
  Name : String
  Size : Int
  Type_ : String
  Content : String

/-- The slice `s[strings.IndexByte(s, ',')+1:]`: what follows the first comma,
the whole string when it has no comma. -/
def afterComma (s : String) : String :=
  if ',' ∈ s.data then String.mk ((s.data.dropWhile (fun ch => ch ≠ ',')).drop 1) else s

/-- The `for` loop of `json`, as `uploadLoop`. -/
def jsonLoop (env : Web) (c : Codec) :
    Fs → List JsonFile → List FileDTO → Fs × Response
  | fs, [], paths => (fs, ⟨StatusOK, .paths paths⟩)
  | fs, file :: rest, paths =>
    let b64data := afterComma file.Content
    match env.DecodeString b64data with
    | .error err => (fs, errorResponse ("could not decode base64 file string: " ++ err))
    | .ok data =>
      let name := env.UnescapeString file.Name
      let img := SaveFile fs
        { Name := name, Size := file.Size, Type_ := file.Type_, Content := NewReader data }
      match img.err with
      | some err => (img.fs, errorResponse ("could not save file: " ++ err))
      | none =>
        let resize := Resize c img.fs
          { Name := name, Size := file.Size, Type_ := file.Type_, Content := NewReader data }
        match resize.err with
        | some err => (resize.fs, errorResponse ("could not resize file: " ++ err))
        | none => jsonLoop env c resize.fs rest (paths ++ [⟨name, img.path, resize.path⟩])

/-- The handler `json` of router.go; `bound` is what `c.BindJSON(data)` leaves:
its error, or the array it filled. -/
def json (env : Web) (c : Codec) (fs : Fs) (bound : Except GoError (List JsonFile)) :
    Fs × Response :=
  match bound with
  | .error err => (fs, errorResponse ("could not unmarshal files: " ++ err))
  | .ok data => jsonLoop env c fs data []

/-- Library functions for concrete runs: the content type is sniffed from the
first byte (137 png, 255 jpeg, 71 gif), names are left unescaped as they are,
the base of a path is what follows its last slash, and every character of an
encoded string stands for the byte of its code. -/
def sampleWeb : Web where
  DetectContentType := fun b =>
    match b with
    | [] => "text/plain; charset=utf-8"
    | magic :: _ =>
      if magic = 137 then "image/png"
      else if magic = 255 then "image/jpeg"
      else if magic = 71 then "image/gif"
      else "application/octet-stream"
  UnescapeString := fun s => s
  Base := fun s => String.mk (s.data.reverse.takeWhile (fun ch => ch ≠ '/')).reverse
  DecodeString := fun s => .ok (s.data.map (fun ch => Fin.ofNat ch.toNat))

/-- A fetched body that starts as a png and stops after the second byte. -/
def cutBody : Reader := ⟨[137, 80], none⟩

/-- The file `link` builds for the url "http://host/cut.png" and `cutBody`. -/
def cutFile : File := ⟨"cut.png", 2, "image/png", ⟨[137, 80], none⟩⟩

/-! ## Lemmas on the substrate -/

theorem lookupFile_putFile_same (l : List (String × List Byte)) (p : String) (d : List Byte) :
    lookupFile (putFile l p d) p = some d := by
  induction l with
  | nil => simp [putFile, lookupFile]
  | cons x rest ih =>
    obtain ⟨k, v⟩ := x
    by_cases h : k = p
    · simp [putFile, lookupFile, h]
    · simp [putFile, lookupFile, h, ih]

theorem lookupFile_putFile_other (l : List (String × List Byte)) (p q : String) (d : List Byte)
    (hq : q ≠ p) : lookupFile (putFile l p d) q = lookupFile l q := by
  induction l with
  | nil =>
    have : ¬ p = q := fun h => hq h.symm
    simp [putFile, lookupFile, this]
  | cons x rest ih =>
    obtain ⟨k, v⟩ := x
    by_cases h : k = p
    · have : ¬ p = q := fun h => hq h.symm
      simp [putFile, lookupFile, h, this]
    · by_cases hk : k = q
      · subst hk
        simp [putFile, lookupFile, h]
      · simp [putFile, lookupFile, h, hk, ih]

/-- The open performed by `SaveFile`: with `O_WRONLY|O_CREATE` a missing file
is created empty and an existing file is opened with its content kept. -/
theorem OpenFile_wronly_create (fs : Fs) (p : String) (perm : Nat) :
    fs.OpenFile p (O_WRONLY ||| O_CREATE) perm =
      match lookupDenied fs.denied p with
      | some e => .error e
      | none =>
        match lookupFile fs.files p with
        | none => .ok ({ fs with files := putFile fs.files p [] }, ⟨p, 0⟩)
        | some _ => .ok (fs, ⟨p, 0⟩) := by
  have h1 : (O_WRONLY ||| O_CREATE) &&& O_CREATE ≠ 0 := by decide
  have h2 : ¬ ((O_WRONLY ||| O_CREATE) &&& O_EXCL ≠ 0) := by decide
  have h3 : ¬ ((O_WRONLY ||| O_CREATE) &&& O_TRUNC ≠ 0 ∧
      (O_WRONLY ||| O_CREATE) &&& (O_RDWR ||| O_WRONLY) ≠ 0) := by decide
  have h4 : ¬ ((O_WRONLY ||| O_CREATE) &&& O_APPEND ≠ 0) := by decide
  unfold Fs.OpenFile
  cases lookupDenied fs.denied p with
  | some e => rfl
  | none =>
    cases lookupFile fs.files p with
    | none => simp only [if_pos h1]
    | some data => simp only [if_neg h2, if_neg h3, if_neg h4]

theorem accepted_of_writeError_none (room : Option (Nat × GoError)) (len : Nat)
    (h : writeError room len = none) : accepted room len = len := by
  cases room with
  | none => rfl
  | some r =>
    obtain ⟨k, e⟩ := r
    simp only [writeError] at h
    simp only [accepted]
    by_cases hk : k < len
    · simp [hk] at h
    · exact Nat.min_eq_right (Nat.le_of_not_lt hk)

theorem writeAt_zero (old b : List Byte) : writeAt old 0 b = b ++ old.drop b.length := by
  simp [writeAt]

/-- A copy that reports no error leaves, under the path of the handle, the
bytes of the reader followed by what the file held beyond them. -/
theorem ioCopy_ok_content (fs : Fs) (p : String) (src : Reader) (old : List Byte)
    (hold : lookupFile fs.files p = some old)
    (herr : (ioCopy fs ⟨p, 0⟩ src).err = none) :
    lookupFile (ioCopy fs ⟨p, 0⟩ src).fs.files p
      = some (src.pending ++ old.drop src.pending.length) := by
  unfold ioCopy at herr ⊢
  by_cases hp : src.pending = []
  · simp [hp, hold]
  · simp only [if_neg hp] at herr ⊢
    have hw : (fs.Write ⟨p, 0⟩ src.pending).err = writeError fs.room src.pending.length := by
      simp [Fs.Write, hold]
    cases hroom : writeError fs.room src.pending.length with
    | some e =>
      rw [hroom] at hw
      simp [hw] at herr
    | none =>
      rw [hroom] at hw
      have hn := accepted_of_writeError_none _ _ hroom
      simp only [hw]
      simp [Fs.Write, hold, hn, lookupFile_putFile_same, writeAt_zero]

/-- A copy never touches a path other than the one of the handle. -/
theorem ioCopy_other (fs : Fs) (h : Handle) (src : Reader) (q : String) (hq : q ≠ h.name) :
    lookupFile (ioCopy fs h src).fs.files q = lookupFile fs.files q := by
  unfold ioCopy
  by_cases hp : src.pending = []
  · simp [hp]
  · simp only [if_neg hp]
    have key : lookupFile (fs.Write h src.pending).fs.files q = lookupFile fs.files q := by
      unfold Fs.Write
      cases lookupFile fs.files h.name with
      | none => rfl
      | some old => simp [lookupFile_putFile_other _ _ _ _ hq]
    cases (fs.Write h src.pending).err with
    | some e => simpa using key
    | none => simpa using key

/-- A copy never removes the file of the handle. -/
theorem ioCopy_exists (fs : Fs) (h : Handle) (src : Reader)
    (hex : (lookupFile fs.files h.name).isSome = true) :
    (lookupFile (ioCopy fs h src).fs.files h.name).isSome = true := by
  unfold ioCopy
  by_cases hp : src.pending = []
  · simp [hp, hex]
  · simp only [if_neg hp]
    have key : (lookupFile (fs.Write h src.pending).fs.files h.name).isSome = true := by
      unfold Fs.Write
      cases hl : lookupFile fs.files h.name with
      | none => simp [hl] at hex
      | some old => simp [lookupFile_putFile_same]
    cases (fs.Write h src.pending).err with
    | some e => simpa using key
    | none => simpa using key

theorem checkMimeType_eq_true_iff (t : String) :
    checkMimeType t = true ↔ t ∈ allowList := by
  unfold checkMimeType allowList
  split <;> simp_all

/-! ## SaveFile -/

/-- What a successful `SaveFile` leaves under its path: the content of the
file, followed by the bytes a file already stored there held beyond it. -/
theorem SaveFile_ok_content (fs : Fs) (file : File)
    (hOk : (SaveFile fs file).err = none) :
    (SaveFile fs file).fs.ReadFile (getSavePath file.Name)
      = some (file.Content.pending ++
          ((fs.ReadFile (getSavePath file.Name)).getD []).drop file.Content.pending.length) := by
  unfold SaveFile at hOk ⊢
  by_cases hm : checkMimeType file.Type_ = true
  · simp only [hm, Bool.not_true, Bool.false_eq_true, if_false] at hOk ⊢
    rw [OpenFile_wronly_create] at hOk ⊢
    cases hd : lookupDenied fs.denied (getSavePath file.Name) with
    | some e => simp [hd] at hOk
    | none =>
      simp only [hd] at hOk ⊢
      cases hl : lookupFile fs.files (getSavePath file.Name) with
      | none =>
        simp only [hl] at hOk ⊢
        have hold : lookupFile
            ({ fs with files := putFile fs.files (getSavePath file.Name) [] } : Fs).files
            (getSavePath file.Name) = some [] := lookupFile_putFile_same _ _ _
        cases hc : (ioCopy { fs with files := putFile fs.files (getSavePath file.Name) [] }
            ⟨getSavePath file.Name, 0⟩ file.Content).err with
        | some e => simp [hc] at hOk
        | none =>
          have := ioCopy_ok_content _ _ file.Content [] hold hc
          simp only [hc, Fs.ReadFile, hl]
          simpa using this
      | some old =>
        simp only [hl] at hOk ⊢
        cases hc : (ioCopy fs ⟨getSavePath file.Name, 0⟩ file.Content).err with
        | some e => simp [hc] at hOk
        | none =>
          have := ioCopy_ok_content _ _ file.Content old hl hc
          simp only [hc, Fs.ReadFile, hl]
          simpa using this
  · simp [hm] at hOk

/-- C1: for an accepted declared type, when the open and the copy performed by
`SaveFile` succeed, `SaveFile` returns no error and the path it returns is
"/images/" followed by the name, character for character. -/
theorem SaveFile_returns_images_path (fs : Fs) (file : File) (fs1 : Fs) (to_ : Handle)
    (hType : file.Type_ ∈ allowList)
    (hOpen : fs.OpenFile (getSavePath file.Name) (O_WRONLY ||| O_CREATE) 0o666 = .ok (fs1, to_))
    (hCopy : (ioCopy fs1 to_ file.Content).err = none) :
    (SaveFile fs file).err = none ∧
    (SaveFile fs file).path = "/images/" ++ file.Name ∧
    (SaveFile fs file).path.data = "/images/".data ++ file.Name.data := by
  have hm : checkMimeType file.Type_ = true := (checkMimeType_eq_true_iff _).2 hType
  have hs : SaveFile fs file =
      ⟨(ioCopy fs1 to_ file.Content).fs, (ioCopy fs1 to_ file.Content).src,
        getSavePath file.Name, none⟩ := by
    unfold SaveFile
    simp only [hm, Bool.not_true, Bool.false_eq_true, if_false, hOpen, hCopy]
  rw [hs]
  exact ⟨rfl, rfl, rfl⟩

/-- Witness of C1: the file of `TestSaveFileSuccess` on an empty substrate. -/
theorem SaveFile_returns_images_path_witness :
    (SaveFile emptyFs goodFile).err = none ∧
    (SaveFile emptyFs goodFile).path = "/images/" ++ goodFile.Name ∧
    (SaveFile emptyFs goodFile).path.data = "/images/".data ++ goodFile.Name.data :=
  SaveFile_returns_images_path emptyFs goodFile
    ⟨[("/images/good.txt", [])], [], none⟩ ⟨"/images/good.txt", 0⟩
    (by decide) (by rfl) (by decide)

/-- C2: for a declared type outside the accepted three, `SaveFile` returns the
empty path and the error "wrong mime type", and leaves the substrate and the
content reader exactly as they were; every path reads as before the call. -/
theorem SaveFile_rejects_other_types (fs : Fs) (file : File)
    (hType : file.Type_ ∉ allowList) :
    SaveFile fs file = ⟨fs, file.Content, "", some "wrong mime type"⟩ ∧
    (SaveFile fs file).fs = fs ∧
    (SaveFile fs file).content = file.Content ∧
    ∀ p, (SaveFile fs file).fs.ReadFile p = fs.ReadFile p := by
  have hm : checkMimeType file.Type_ = false := by
    cases h : checkMimeType file.Type_ with
    | false => rfl
    | true => exact absurd ((checkMimeType_eq_true_iff _).1 h) hType
  have hs : SaveFile fs file = ⟨fs, file.Content, "", some "wrong mime type"⟩ := by
    unfold SaveFile
    simp [hm]
  rw [hs]
  exact ⟨rfl, rfl, rfl, fun _ => rfl⟩

/-- Witness of C2: the file of `TestSaveFileFail`, of type "image/php". -/
theorem SaveFile_rejects_other_types_witness :
    SaveFile emptyFs badFile = ⟨emptyFs, badFile.Content, "", some "wrong mime type"⟩ ∧
    (SaveFile emptyFs badFile).fs = emptyFs ∧
    (SaveFile emptyFs badFile).content = badFile.Content ∧
    ∀ p, (SaveFile emptyFs badFile).fs.ReadFile p = emptyFs.ReadFile p :=
  SaveFile_rejects_other_types emptyFs badFile (by decide)

/-- C3: when no file exists at "/images/<name>" and `SaveFile` returns no
error (which it does for accepted types only), reading "/images/<name>"
afterwards yields exactly the bytes of the content; the field `Size` has no
influence on anything `SaveFile` does. -/
theorem SaveFile_then_ReadFile (fs : Fs) (file : File)
    (hNew : fs.ReadFile (getSavePath file.Name) = none)
    (hOk : (SaveFile fs file).err = none) :
    (SaveFile fs file).fs.ReadFile (getSavePath file.Name) = some file.Content.pending ∧
    ∀ size : Int, SaveFile fs { file with Size := size } = SaveFile fs file := by
  refine ⟨?_, fun _ => rfl⟩
  rw [SaveFile_ok_content fs file hOk, hNew]
  simp

/-- Witness of C3: the file of `TestSaveFileSuccess` on an empty substrate. -/
theorem SaveFile_then_ReadFile_witness :
    (SaveFile emptyFs goodFile).fs.ReadFile (getSavePath goodFile.Name)
      = some goodFile.Content.pending ∧
    ∀ size : Int, SaveFile emptyFs { goodFile with Size := size } = SaveFile emptyFs goodFile :=
  SaveFile_then_ReadFile emptyFs goodFile (by decide) (by decide)

/-- C4, evaluated on the code: after saving three bytes and then one byte under
the same name, both calls succeed and report the same path, but the file
holds the new byte followed by the last two bytes of the first upload, not
the second upload alone: `SaveFile` opens without `O_TRUNC`. -/
theorem SaveFile_resave_keeps_old_tail :
    (SaveFile emptyFs firstUpload).err = none ∧
    (SaveFile (SaveFile emptyFs firstUpload).fs secondUpload).err = none ∧
    (SaveFile (SaveFile emptyFs firstUpload).fs secondUpload).path
      = (SaveFile emptyFs firstUpload).path ∧
    (SaveFile (SaveFile emptyFs firstUpload).fs secondUpload).fs.ReadFile "/images/a.png"
      = some [9, 2, 3] ∧
    (SaveFile (SaveFile emptyFs firstUpload).fs secondUpload).fs.ReadFile "/images/a.png"
      ≠ some secondUpload.Content.pending := by
  decide

/-- What the open of `SaveFile` returns when it succeeds: a handle on the
path at offset 0, and a state in which the path exists and every other path
is as before. -/
theorem OpenFile_wronly_create_ok (fs fs1 : Fs) (p : String) (perm : Nat) (h : Handle)
    (hOpen : fs.OpenFile p (O_WRONLY ||| O_CREATE) perm = .ok (fs1, h)) :
    h = ⟨p, 0⟩ ∧ (lookupFile fs1.files p).isSome = true ∧
    ∀ q, q ≠ p → lookupFile fs1.files q = lookupFile fs.files q := by
  rw [OpenFile_wronly_create] at hOpen
  cases hd : lookupDenied fs.denied p with
  | some e => simp [hd] at hOpen
  | none =>
    simp only [hd] at hOpen
    cases hl : lookupFile fs.files p with
    | none =>
      simp only [hl, Except.ok.injEq, Prod.mk.injEq] at hOpen
      obtain ⟨h1, h2⟩ := hOpen
      subst h1 h2
      refine ⟨rfl, ?_, ?_⟩
      · simp [lookupFile_putFile_same]
      · intro q hq
        exact lookupFile_putFile_other _ _ _ _ hq
    | some old =>
      simp only [hl, Except.ok.injEq, Prod.mk.injEq] at hOpen
      obtain ⟨h1, h2⟩ := hOpen
      subst h1 h2
      exact ⟨rfl, by simp [hl], fun _ _ => rfl⟩

/-- The two ways `SaveFile` ends once the type is accepted and the open
succeeded. -/
theorem SaveFile_of_open (fs fs1 : Fs) (file : File) (to_ : Handle)
    (hm : checkMimeType file.Type_ = true)
    (hOpen : fs.OpenFile (getSavePath file.Name) (O_WRONLY ||| O_CREATE) 0o666 = .ok (fs1, to_)) :
    SaveFile fs file =
      match (ioCopy fs1 to_ file.Content).err with
      | some err => ⟨(ioCopy fs1 to_ file.Content).fs, (ioCopy fs1 to_ file.Content).src, "", some err⟩
      | none => ⟨(ioCopy fs1 to_ file.Content).fs, (ioCopy fs1 to_ file.Content).src,
          getSavePath file.Name, none⟩ := by
  unfold SaveFile
  simp only [hm, Bool.not_true, Bool.false_eq_true, if_false, hOpen]

/-- The encoder switch of `Resize` has a case for a type exactly when
`checkMimeType` accepts it. -/
theorem encodeBuffer_isSome_iff (c : Codec) (t : String) (img : Image) :
    (encodeBuffer c t img).isSome = true ↔ t ∈ allowList := by
  unfold encodeBuffer allowList
  split <;> simp_all

/-- The run of `Resize` after a successful decode. -/
theorem Resize_of_decode (c : Codec) (fs : Fs) (file : File) (img : Image) (fmt : String)
    (hDec : c.decode file.Content = .ok (img, fmt)) :
    Resize c fs file =
      match encodeBuffer c file.Type_ (Thumbnail c 100 100 img) with
      | none => ⟨fs, "", some "could not encode image"⟩
      | some buff =>
        if buff.length > 0 then
          match (SaveFile fs (thumbFile file buff)).err with
          | some err => ⟨(SaveFile fs (thumbFile file buff)).fs, "", some err⟩
          | none => ⟨(SaveFile fs (thumbFile file buff)).fs,
              (SaveFile fs (thumbFile file buff)).path, none⟩
        else ⟨fs, "", some "could not resize image"⟩ := by
  unfold Resize thumbFile
  simp only [hDec]

theorem getSavePath_thumb (name : String) :
    getSavePath ("thumb_" ++ name) = "/images/thumb_" ++ name := by
  have h : "/images/thumb_" = "/images/" ++ "thumb_" := by decide
  rw [getSavePath, h, String.append_assoc]

/-! ## Resize -/

/-- C5: when the content decodes, the declared type is one of the accepted
three, the encoder leaves a non-empty buffer and the open and the copy of the
delegated save succeed, `Resize` returns no error and the path
"/images/thumb_" followed by the name, which is `getSavePath` of "thumb_"
followed by the name, and a file exists at that path afterwards. -/
theorem Resize_returns_thumb_path (c : Codec) (fs : Fs) (file : File) (img : Image)
    (fmt : String) (buff : List Byte) (fs1 : Fs) (to_ : Handle)
    (hDec : c.decode file.Content = .ok (img, fmt))
    (hType : file.Type_ ∈ allowList)
    (hBuf : encodeBuffer c file.Type_ (Thumbnail c 100 100 img) = some buff)
    (hNe : buff ≠ [])
    (hOpen : fs.OpenFile (getSavePath ("thumb_" ++ file.Name)) (O_WRONLY ||| O_CREATE) 0o666
      = .ok (fs1, to_))
    (hCopy : (ioCopy fs1 to_ ⟨buff, none⟩).err = none) :
    (Resize c fs file).err = none ∧
    (Resize c fs file).path = "/images/thumb_" ++ file.Name ∧
    (Resize c fs file).path = getSavePath ("thumb_" ++ file.Name) ∧
    (Resize c fs file).fs.Exists ("/images/thumb_" ++ file.Name) = true := by
  have hm : checkMimeType file.Type_ = true := (checkMimeType_eq_true_iff _).2 hType
  have hlen : buff.length > 0 := List.length_pos.2 hNe
  have hpath := getSavePath_thumb file.Name
  have hsave := SaveFile_of_open fs fs1 (thumbFile file buff) to_ hm hOpen
  simp only [thumbFile, hCopy] at hsave
  have hres : Resize c fs file =
      ⟨(ioCopy fs1 to_ ⟨buff, none⟩).fs, getSavePath ("thumb_" ++ file.Name), none⟩ := by
    rw [Resize_of_decode c fs file img fmt hDec]
    simp only [hBuf, hlen, if_true, thumbFile, hsave]
  obtain ⟨hh, hex, _⟩ := OpenFile_wronly_create_ok fs fs1 _ _ to_ hOpen
  subst hh
  have hex2 := ioCopy_exists fs1 ⟨getSavePath ("thumb_" ++ file.Name), 0⟩ ⟨buff, none⟩ hex
  rw [hres]
  refine ⟨rfl, hpath, rfl, ?_⟩
  rw [← hpath]
  exact hex2

/-- Witness of C5: a 200 by 50 png on an empty substrate. -/
theorem Resize_returns_thumb_path_witness :
    (Resize sampleCodec emptyFs pngFile).err = none ∧
    (Resize sampleCodec emptyFs pngFile).path = "/images/thumb_" ++ pngFile.Name ∧
    (Resize sampleCodec emptyFs pngFile).path = getSavePath ("thumb_" ++ pngFile.Name) ∧
    (Resize sampleCodec emptyFs pngFile).fs.Exists ("/images/thumb_" ++ pngFile.Name) = true :=
  Resize_returns_thumb_path sampleCodec emptyFs pngFile ⟨200, 50, [1, 2, 3]⟩ "png"
    [137, 100, 25, 1, 2, 3] ⟨[("/images/thumb_test.png", [])], [], none⟩
    ⟨"/images/thumb_test.png", 0⟩ (by rfl) (by decide) (by decide) (by decide) (by rfl)
    (by decide)

/-- C6: when the content does not decode, whatever the declared type, `Resize`
returns the empty path and the error of the decoder and leaves the substrate
as it was (every path reads as before, so no thumbnail appears); no later
step runs: the outcome is the same for every resampler and every encoder. -/
theorem Resize_decode_failure (c : Codec) (fs : Fs) (file : File) (e : GoError)
    (hDec : c.decode file.Content = .error e) :
    Resize c fs file = ⟨fs, "", some e⟩ ∧
    (∀ p, (Resize c fs file).fs.ReadFile p = fs.ReadFile p) ∧
    (Resize c fs file).fs.Exists (getSavePath ("thumb_" ++ file.Name))
      = fs.Exists (getSavePath ("thumb_" ++ file.Name)) ∧
    ∀ c2 : Codec, c2.decode = c.decode → Resize c2 fs file = ⟨fs, "", some e⟩ := by
  have key : ∀ c2 : Codec, c2.decode = c.decode → Resize c2 fs file = ⟨fs, "", some e⟩ := by
    intro c2 h2
    unfold Resize
    simp only [h2, hDec]
  rw [key c rfl]
  exact ⟨rfl, fun _ => rfl, rfl, key⟩

/-- Witness of C6: the bytes "123" declared image/png. -/
theorem Resize_decode_failure_witness :
    Resize sampleCodec emptyFs textFile = ⟨emptyFs, "", some "image: unknown format"⟩ ∧
    (∀ p, (Resize sampleCodec emptyFs textFile).fs.ReadFile p = emptyFs.ReadFile p) ∧
    (Resize sampleCodec emptyFs textFile).fs.Exists (getSavePath ("thumb_" ++ textFile.Name))
      = emptyFs.Exists (getSavePath ("thumb_" ++ textFile.Name)) ∧
    ∀ c2 : Codec, c2.decode = sampleCodec.decode →
      Resize c2 emptyFs textFile = ⟨emptyFs, "", some "image: unknown format"⟩ :=
  Resize_decode_failure sampleCodec emptyFs textFile "image: unknown format" (by rfl)

/-- C7: when the content decodes and the declared type is none of image/png,
image/jpg, image/jpeg, `Resize` returns the empty path and the error
"could not encode image" and leaves the substrate as it was; and for every
file the outcome of `Resize` is the same whatever format name the decoder
reports: the encoder is chosen from the declared type alone. -/
theorem Resize_unsupported_type (c : Codec) (fs : Fs) (file : File) (img : Image)
    (fmt : String)
    (hDec : c.decode file.Content = .ok (img, fmt))
    (hType : file.Type_ ∉ allowList) :
    Resize c fs file = ⟨fs, "", some "could not encode image"⟩ ∧
    (∀ p, (Resize c fs file).fs.ReadFile p = fs.ReadFile p) ∧
    ∀ (g : String → String) (fs2 : Fs) (file2 : File),
      Resize (relabelFormat c g) fs2 file2 = Resize c fs2 file2 := by
  have hnone : encodeBuffer c file.Type_ (Thumbnail c 100 100 img) = none := by
    cases h : encodeBuffer c file.Type_ (Thumbnail c 100 100 img) with
    | none => rfl
    | some b =>
      exact absurd ((encodeBuffer_isSome_iff c file.Type_ (Thumbnail c 100 100 img)).1
        (by rw [h]; rfl)) hType
  have hres : Resize c fs file = ⟨fs, "", some "could not encode image"⟩ := by
    rw [Resize_of_decode c fs file img fmt hDec]
    simp only [hnone]
  rw [hres]
  refine ⟨rfl, fun _ => rfl, ?_⟩
  intro g fs2 file2
  unfold Resize
  cases hd : c.decode file2.Content with
  | error e => simp [relabelFormat, hd]
  | ok r =>
    obtain ⟨img2, fmt2⟩ := r
    simp [relabelFormat, hd, Thumbnail, resizeImage, encodeBuffer]

/-- Witness of C7: a gif declared image/gif decodes and is refused by the
encoder switch. -/
theorem Resize_unsupported_type_witness :
    Resize sampleCodec emptyFs gifFile = ⟨emptyFs, "", some "could not encode image"⟩ ∧
    (∀ p, (Resize sampleCodec emptyFs gifFile).fs.ReadFile p = emptyFs.ReadFile p) ∧
    ∀ (g : String → String) (fs2 : Fs) (file2 : File),
      Resize (relabelFormat sampleCodec g) fs2 file2 = Resize sampleCodec fs2 file2 :=
  Resize_unsupported_type sampleCodec emptyFs gifFile ⟨200, 50, [1, 2, 3]⟩ "gif"
    (by rfl) (by decide)

/-! ## The thumbnail size -/

theorem thumbnailSize_cases (w h : Nat) :
    (w ≤ 100 ∧ h ≤ 100 ∧ thumbnailSize 100 100 w h = (w, h)) ∨
    (100 < w ∧ max 1 (h * 100 / w) ≤ 100 ∧
      thumbnailSize 100 100 w h = (100, max 1 (h * 100 / w))) ∨
    (100 < w ∧ 100 < h * 100 / w ∧
      thumbnailSize 100 100 w h = (max 1 (100 * 100 / (h * 100 / w)), 100)) ∨
    (w ≤ 100 ∧ 100 < h ∧ thumbnailSize 100 100 w h = (max 1 (w * 100 / h), 100)) := by
  unfold thumbnailSize
  by_cases hw : 100 < w
  · by_cases h1 : 100 < h * 100 / w
    · right; right; left
      refine ⟨hw, h1, ?_⟩
      have hno : ¬ (w ≤ 100 ∧ h ≤ 100) := by omega
      have hm : max 1 (h * 100 / w) = h * 100 / w := by omega
      simp only [hno, hw, if_true, if_false, hm, h1]
    · right; left
      have h2 : ¬ 100 < max 1 (h * 100 / w) := by omega
      refine ⟨hw, by omega, ?_⟩
      have hno : ¬ (w ≤ 100 ∧ h ≤ 100) := by omega
      simp only [hno, hw, if_true, if_false, h2]
  · by_cases hh : 100 < h
    · right; right; right
      refine ⟨by omega, hh, ?_⟩
      have hno : ¬ (w ≤ 100 ∧ h ≤ 100) := by omega
      simp only [hno, hw, if_false, hh, if_true]
    · left
      refine ⟨by omega, by omega, ?_⟩
      have hyes : (w ≤ 100 ∧ h ≤ 100) := by omega
      simp only [hyes, and_self, if_true]

theorem thumbnailSize_bounds (w h : Nat) (hw0 : 0 < w) (hh0 : 0 < h) :
    1 ≤ (thumbnailSize 100 100 w h).1 ∧ (thumbnailSize 100 100 w h).1 ≤ 100 ∧
    1 ≤ (thumbnailSize 100 100 w h).2 ∧ (thumbnailSize 100 100 w h).2 ≤ 100 ∧
    (thumbnailSize 100 100 w h).1 ≤ w ∧ (thumbnailSize 100 100 w h).2 ≤ h := by
  rcases thumbnailSize_cases w h with ⟨hw, hh, e⟩ | ⟨hw, h1, e⟩ | ⟨hw, h1, e⟩ | ⟨hw, hh, e⟩
  · rw [e]; exact ⟨hw0, hw, hh0, hh, le_refl _, le_refl _⟩
  · rw [e]
    have hle : h * 100 / w ≤ h := by
      apply Nat.div_le_of_le_mul
      nlinarith
    refine ⟨by omega, le_refl _, by omega, h1, by omega, ?_⟩
    show max 1 (h * 100 / w) ≤ h
    omega
  · rw [e]
    have hle : h * 100 / w ≤ h := by
      apply Nat.div_le_of_le_mul
      nlinarith
    have h2 : 100 * 100 / (h * 100 / w) ≤ 100 := by
      apply Nat.div_le_of_le_mul
      nlinarith
    refine ⟨?_, ?_, by omega, le_refl _, ?_, ?_⟩
    · show 1 ≤ max 1 (100 * 100 / (h * 100 / w)); omega
    · show max 1 (100 * 100 / (h * 100 / w)) ≤ 100; omega
    · show max 1 (100 * 100 / (h * 100 / w)) ≤ w; omega
    · show 100 ≤ h; omega
  · rw [e]
    have h2 : w * 100 / h ≤ w := by
      apply Nat.div_le_of_le_mul
      nlinarith
    refine ⟨?_, ?_, by omega, le_refl _, ?_, ?_⟩
    · show 1 ≤ max 1 (w * 100 / h); omega
    · show max 1 (w * 100 / h) ≤ 100; omega
    · show max 1 (w * 100 / h) ≤ w; omega
    · show 100 ≤ h; omega

theorem max_one_cases (x : Nat) : (x = 0 ∧ max 1 x = 1) ∨ (0 < x ∧ max 1 x = x) := by
  omega

theorem thumbnailSize_scaled (w h : Nat) (hw0 : 0 < w) (hh0 : 0 < h)
    (hbig : ¬ (w ≤ 100 ∧ h ≤ 100)) :
    scaledToBox 100 100 w h (thumbnailSize 100 100 w h).1 (thumbnailSize 100 100 w h).2 := by
  unfold scaledToBox
  rcases thumbnailSize_cases w h with ⟨hw, hh, e⟩ | ⟨hw, h1, e⟩ | ⟨hw, h1, e⟩ | ⟨hw, hh, e⟩
  · exact absurd ⟨hw, hh⟩ hbig
  · rw [e]; left
    have a := Nat.div_mul_le_self (h * 100) w
    have b := @Nat.lt_div_mul_add (h * 100) w hw0
    refine ⟨rfl, ?_, ?_⟩
    · show max 1 (h * 100 / w) * w < 100 * h + w
      rcases max_one_cases (h * 100 / w) with ⟨_, hm⟩ | ⟨_, hm⟩ <;> rw [hm] <;> nlinarith
    · show 100 * h < max 1 (h * 100 / w) * w + w
      rcases max_one_cases (h * 100 / w) with ⟨hz, hm⟩ | ⟨_, hm⟩
      · rw [hm]; rw [hz] at b; omega
      · rw [hm]; nlinarith
  · rw [e]; right
    have a := Nat.div_mul_le_self (h * 100) w
    have b := @Nat.lt_div_mul_add (h * 100) w hw0
    have hpos1 : 0 < h * 100 / w := by omega
    have c := Nat.div_mul_le_self (100 * 100) (h * 100 / w)
    have d := @Nat.lt_div_mul_add (100 * 100) (h * 100 / w) hpos1
    generalize h * 100 / w = y at *
    refine ⟨rfl, ?_, ?_⟩
    · show max 1 (100 * 100 / y) * h < 100 * w + h
      rcases max_one_cases (100 * 100 / y) with ⟨_, hm⟩ | ⟨_, hm⟩
      · rw [hm]; nlinarith
      · rw [hm]
        generalize 100 * 100 / y = x at *
        nlinarith
    · show 100 * w < max 1 (100 * 100 / y) * h + h
      rcases max_one_cases (100 * 100 / y) with ⟨hz, hm⟩ | ⟨_, hm⟩
      · rw [hm]; rw [hz] at d
        nlinarith
      · rw [hm]
        generalize 100 * 100 / y = x at *
        nlinarith
  · rw [e]; right
    have a := Nat.div_mul_le_self (w * 100) h
    have b := @Nat.lt_div_mul_add (w * 100) h hh0
    refine ⟨rfl, ?_, ?_⟩
    · show max 1 (w * 100 / h) * h < 100 * w + h
      rcases max_one_cases (w * 100 / h) with ⟨_, hm⟩ | ⟨_, hm⟩ <;> rw [hm] <;> nlinarith
    · show 100 * w < max 1 (w * 100 / h) * h + h
      rcases max_one_cases (w * 100 / h) with ⟨hz, hm⟩ | ⟨_, hm⟩
      · rw [hm]; rw [hz] at b; omega
      · rw [hm]; nlinarith

/-- The thumbnail of an image with pixels has the size `thumbnailSize`. -/
theorem Thumbnail_size (c : Codec) (img : Image) (hw0 : 0 < img.width)
    (hh0 : 0 < img.height) :
    ((Thumbnail c 100 100 img).width, (Thumbnail c 100 100 img).height)
      = thumbnailSize 100 100 img.width img.height := by
  unfold Thumbnail
  by_cases hb : img.width ≤ 100 ∧ img.height ≤ 100
  · simp [hb, thumbnailSize]
  · simp only [hb, if_false]
    unfold resizeImage
    by_cases h1 : (thumbnailSize 100 100 img.width img.height).1 = img.width ∧
        (thumbnailSize 100 100 img.width img.height).2 = img.height
    · simp only [h1, and_self, if_true]
      exact (Prod.ext h1.1 h1.2).symm
    · have h2 : ¬ (img.width = 0 ∨ img.height = 0) := by omega
      simp only [h1, h2, if_false]

/-- The thumbnail of an image with pixels that is outside the box is the
resampling of the image to `thumbnailSize`. -/
theorem Thumbnail_oversize (c : Codec) (img : Image) (hw0 : 0 < img.width)
    (hh0 : 0 < img.height) (hbig : ¬ (img.width ≤ 100 ∧ img.height ≤ 100)) :
    Thumbnail c 100 100 img =
      ⟨(thumbnailSize 100 100 img.width img.height).1,
       (thumbnailSize 100 100 img.width img.height).2,
       c.resample (thumbnailSize 100 100 img.width img.height).1
         (thumbnailSize 100 100 img.width img.height).2 img⟩ := by
  obtain ⟨_, b2, _, b4, _, _⟩ := thumbnailSize_bounds img.width img.height hw0 hh0
  unfold Thumbnail
  simp only [hbig, if_false]
  unfold resizeImage
  have h1 : ¬ ((thumbnailSize 100 100 img.width img.height).1 = img.width ∧
      (thumbnailSize 100 100 img.width img.height).2 = img.height) := by omega
  have h2 : ¬ (img.width = 0 ∨ img.height = 0) := by omega
  simp only [h1, h2, if_false]

/-! ## Failure paths of Resize -/

/-- C8, refuted as stated: on a substrate that accepts one byte and then fails,
`Resize` of a valid png returns the error of the write, and the path
"/images/thumb_test.png", which did not exist before the call, holds the
first byte of the encoded thumbnail afterwards. -/
theorem Resize_failure_leaves_partial_thumbnail :
    (Resize sampleCodec tightFs pngFile).err = some "no space left on device" ∧
    (Resize sampleCodec tightFs pngFile).path = "" ∧
    tightFs.ReadFile "/images/thumb_test.png" = none ∧
    (Resize sampleCodec tightFs pngFile).fs.ReadFile "/images/thumb_test.png" = some [137] := by
  decide

/-- C8, amended: when `Resize` returns an error, either the substrate is
exactly as before the call, or the error is the one of the copy into
"/images/thumb_<name>" after its open succeeded, and the substrate is as that
failed copy left it (nothing is rolled back). -/
theorem Resize_error_substrate (c : Codec) (fs : Fs) (file : File) (e : GoError)
    (hErr : (Resize c fs file).err = some e) :
    (Resize c fs file).fs = fs ∨
      ∃ img fmt buff fs1 to_,
        c.decode file.Content = .ok (img, fmt) ∧
        encodeBuffer c file.Type_ (Thumbnail c 100 100 img) = some buff ∧
        fs.OpenFile (getSavePath ("thumb_" ++ file.Name)) (O_WRONLY ||| O_CREATE) 0o666
          = .ok (fs1, to_) ∧
        (ioCopy fs1 to_ ⟨buff, none⟩).err = some e ∧
        (Resize c fs file).fs = (ioCopy fs1 to_ ⟨buff, none⟩).fs := by
  cases hd : c.decode file.Content with
  | error e1 =>
    have hr : Resize c fs file = ⟨fs, "", some e1⟩ := by
      unfold Resize
      simp only [hd]
    rw [hr]
    exact Or.inl rfl
  | ok r =>
    obtain ⟨img, fmt⟩ := r
    have hr := Resize_of_decode c fs file img fmt hd
    cases hb : encodeBuffer c file.Type_ (Thumbnail c 100 100 img) with
    | none =>
      simp only [hb] at hr
      rw [hr]
      exact Or.inl rfl
    | some buff =>
      simp only [hb] at hr
      by_cases hlen : buff.length > 0
      · simp only [hlen, if_true] at hr
        have hm : checkMimeType (thumbFile file buff).Type_ = true :=
          (checkMimeType_eq_true_iff _).2
            ((encodeBuffer_isSome_iff c file.Type_ (Thumbnail c 100 100 img)).1
              (by rw [hb]; rfl))
        cases ho : fs.OpenFile (getSavePath (thumbFile file buff).Name)
            (O_WRONLY ||| O_CREATE) 0o666 with
        | error e2 =>
          have hs : SaveFile fs (thumbFile file buff)
              = ⟨fs, (thumbFile file buff).Content, "", some e2⟩ := by
            unfold SaveFile
            simp only [hm, Bool.not_true, Bool.false_eq_true, if_false, ho]
          simp only [hs] at hr
          rw [hr]
          exact Or.inl rfl
        | ok r1 =>
          obtain ⟨fs1, to_⟩ := r1
          have hs := SaveFile_of_open fs fs1 (thumbFile file buff) to_ hm ho
          cases hc : (ioCopy fs1 to_ (thumbFile file buff).Content).err with
          | none =>
            simp only [hc] at hs
            simp only [hs] at hr
            rw [hr] at hErr
            simp at hErr
          | some e3 =>
            simp only [hc] at hs
            simp only [hs] at hr
            rw [hr] at hErr
            simp at hErr
            subst hErr
            rw [hr]
            exact Or.inr ⟨img, fmt, buff, fs1, to_, rfl, hb, ho, hc, rfl⟩
      · simp only [hlen, if_false] at hr
        rw [hr]
        exact Or.inl rfl

/-- Witness of the amended C8: a valid png on a substrate that fails after
one byte. -/
theorem Resize_error_substrate_witness :
    (Resize sampleCodec tightFs pngFile).fs = tightFs ∨
      ∃ img fmt buff fs1 to_,
        sampleCodec.decode pngFile.Content = .ok (img, fmt) ∧
        encodeBuffer sampleCodec pngFile.Type_ (Thumbnail sampleCodec 100 100 img) = some buff ∧
        tightFs.OpenFile (getSavePath ("thumb_" ++ pngFile.Name)) (O_WRONLY ||| O_CREATE) 0o666
          = .ok (fs1, to_) ∧
        (ioCopy fs1 to_ ⟨buff, none⟩).err = some "no space left on device" ∧
        (Resize sampleCodec tightFs pngFile).fs = (ioCopy fs1 to_ ⟨buff, none⟩).fs :=
  Resize_error_substrate sampleCodec tightFs pngFile "no space left on device" (by decide)

/-- C9, refuted as stated: the PNG encoder reports an error for the decoded
5 by 0 image and writes nothing; `Resize` does not return that error but
"could not resize image". -/
theorem Resize_drops_encoder_error :
    sampleCodec.decode flatFile.Content = .ok (⟨5, 0, []⟩, "gif") ∧
    sampleCodec.encodePNG (Thumbnail sampleCodec 100 100 ⟨5, 0, []⟩)
      = ([], some "png: invalid format: invalid image size") ∧
    (Resize sampleCodec emptyFs flatFile).err = some "could not resize image" ∧
    (Resize sampleCodec emptyFs flatFile).err
      ≠ (sampleCodec.encodePNG (Thumbnail sampleCodec 100 100 ⟨5, 0, []⟩)).2 := by
  refine ⟨rfl, rfl, ?_, ?_⟩ <;> decide

/-- C9, amended: an error of the decode step and an error of the delegated
`SaveFile` call are returned unchanged, with the empty path; on a decode
error nothing is persisted.  The error result of the encoder is not looked
at: when the encoder left the buffer empty, `Resize` returns the empty path
and "could not resize image", whatever the encoder returned, and persists
nothing.  Whenever `Resize` returns an error its path is empty. -/
theorem Resize_error_propagation (c : Codec) (fs : Fs) (file : File) :
    (∀ e, c.decode file.Content = .error e → Resize c fs file = ⟨fs, "", some e⟩) ∧
    (∀ img fmt buff e, c.decode file.Content = .ok (img, fmt) →
      encodeBuffer c file.Type_ (Thumbnail c 100 100 img) = some buff → buff ≠ [] →
      (SaveFile fs (thumbFile file buff)).err = some e →
      Resize c fs file = ⟨(SaveFile fs (thumbFile file buff)).fs, "", some e⟩) ∧
    (∀ img fmt, c.decode file.Content = .ok (img, fmt) →
      encodeBuffer c file.Type_ (Thumbnail c 100 100 img) = some [] →
      Resize c fs file = ⟨fs, "", some "could not resize image"⟩) ∧
    (∀ e, (Resize c fs file).err = some e → (Resize c fs file).path = "") := by
  refine ⟨?_, ?_, ?_, ?_⟩
  · intro e hd
    unfold Resize
    simp only [hd]
  · intro img fmt buff e hd hb hne hs
    have hlen : buff.length > 0 := List.length_pos.2 hne
    rw [Resize_of_decode c fs file img fmt hd]
    simp only [hb, hlen, if_true, hs]
  · intro img fmt hd hb
    rw [Resize_of_decode c fs file img fmt hd]
    simp [hb]
  · intro e hErr
    cases hd : c.decode file.Content with
    | error e1 =>
      have hr : Resize c fs file = ⟨fs, "", some e1⟩ := by
        unfold Resize
        simp only [hd]
      rw [hr]
    | ok r =>
      obtain ⟨img, fmt⟩ := r
      have hr := Resize_of_decode c fs file img fmt hd
      cases hb : encodeBuffer c file.Type_ (Thumbnail c 100 100 img) with
      | none =>
        simp only [hb] at hr
        rw [hr]
      | some buff =>
        simp only [hb] at hr
        by_cases hlen : buff.length > 0
        · simp only [hlen, if_true] at hr
          cases hs : (SaveFile fs (thumbFile file buff)).err with
          | none =>
            simp only [hs] at hr
            rw [hr] at hErr
            simp at hErr
          | some e2 =>
            simp only [hs] at hr
            rw [hr]
        · simp only [hlen, if_false] at hr
          rw [hr]

/-- Witness of the amended C9: a stream that is no image, a valid png on a
substrate that fails after one byte, and a png encoder that leaves the buffer
empty. -/
theorem Resize_error_propagation_witness :
    Resize sampleCodec emptyFs textFile = ⟨emptyFs, "", some "image: unknown format"⟩ ∧
    Resize sampleCodec tightFs pngFile
      = ⟨(SaveFile tightFs (thumbFile pngFile [137, 100, 25, 1, 2, 3])).fs, "",
          some "no space left on device"⟩ ∧
    Resize sampleCodec emptyFs flatFile = ⟨emptyFs, "", some "could not resize image"⟩ ∧
    (Resize sampleCodec tightFs pngFile).path = "" :=
  ⟨(Resize_error_propagation sampleCodec emptyFs textFile).1 _ (by rfl),
   (Resize_error_propagation sampleCodec tightFs pngFile).2.1 ⟨200, 50, [1, 2, 3]⟩ "png"
      [137, 100, 25, 1, 2, 3] "no space left on device" (by rfl) (by decide) (by decide)
      (by decide),
   (Resize_error_propagation sampleCodec emptyFs flatFile).2.2.1 ⟨5, 0, []⟩ "gif" (by rfl)
      (by decide),
   (Resize_error_propagation sampleCodec tightFs pngFile).2.2.2 "no space left on device"
      (by decide)⟩

/-! ## The thumbnail step of Resize -/

/-- C10, refuted as stated: a gif of 200 by 0 declared image/jpeg decodes, and
`Resize` encodes and stores its thumbnail without error; that thumbnail does
not satisfy the claimed bounds (at most 100 by 100 and not larger than the
source on either side). -/
theorem Thumbnail_of_empty_image_breaks_bounds :
    sampleCodec.decode wideFlatFile.Content = .ok (⟨200, 0, []⟩, "gif") ∧
    (Resize sampleCodec emptyFs wideFlatFile).err = none ∧
    ¬ ((Thumbnail sampleCodec 100 100 ⟨200, 0, []⟩).width ≤ 100 ∧
       (Thumbnail sampleCodec 100 100 ⟨200, 0, []⟩).height ≤ 100 ∧
       (Thumbnail sampleCodec 100 100 ⟨200, 0, []⟩).width ≤ 200 ∧
       (Thumbnail sampleCodec 100 100 ⟨200, 0, []⟩).height ≤ 0) := by
  refine ⟨rfl, ?_, ?_⟩ <;> decide

/-- C10, amended: for a content that decodes to an image of `w` by `h` with at
least one pixel, `Resize` goes on with the result of one call of the resize
capability for the box 100 by 100 (this step has no failure case).  That
thumbnail has both sides between 1 and 100 and is never larger than the
source; it is the source itself when the source fits the box; otherwise it is
the source resampled so that one side is 100 and the other side is less than
one unit away from the proportional value.  When `Resize` returns no error,
the file at "/images/thumb_<name>" starts with the encoding of that
thumbnail. -/
theorem Resize_thumbnail_bounded (c : Codec) (fs : Fs) (file : File) (img : Image)
    (fmt : String) (hDec : c.decode file.Content = .ok (img, fmt))
    (hw0 : 0 < img.width) (hh0 : 0 < img.height) :
    1 ≤ (Thumbnail c 100 100 img).width ∧
    (Thumbnail c 100 100 img).width ≤ 100 ∧
    1 ≤ (Thumbnail c 100 100 img).height ∧
    (Thumbnail c 100 100 img).height ≤ 100 ∧
    (Thumbnail c 100 100 img).width ≤ img.width ∧
    (Thumbnail c 100 100 img).height ≤ img.height ∧
    (img.width ≤ 100 → img.height ≤ 100 → Thumbnail c 100 100 img = img) ∧
    (¬ (img.width ≤ 100 ∧ img.height ≤ 100) →
      scaledToBox 100 100 img.width img.height
        (Thumbnail c 100 100 img).width (Thumbnail c 100 100 img).height ∧
      (Thumbnail c 100 100 img).pix
        = c.resample (Thumbnail c 100 100 img).width (Thumbnail c 100 100 img).height img) ∧
    Resize c fs file =
      (match encodeBuffer c file.Type_ (Thumbnail c 100 100 img) with
      | none => ⟨fs, "", some "could not encode image"⟩
      | some buff =>
        if buff.length > 0 then
          match (SaveFile fs (thumbFile file buff)).err with
          | some err => ⟨(SaveFile fs (thumbFile file buff)).fs, "", some err⟩
          | none => ⟨(SaveFile fs (thumbFile file buff)).fs,
              (SaveFile fs (thumbFile file buff)).path, none⟩
        else ⟨fs, "", some "could not resize image"⟩) ∧
    ((Resize c fs file).err = none →
      ∃ buff, encodeBuffer c file.Type_ (Thumbnail c 100 100 img) = some buff ∧
        buff ≠ [] ∧
        (Resize c fs file).fs.ReadFile (getSavePath ("thumb_" ++ file.Name))
          = some (buff ++
              ((fs.ReadFile (getSavePath ("thumb_" ++ file.Name))).getD []).drop
                buff.length)) := by
  have hsz := Thumbnail_size c img hw0 hh0
  have hw : (Thumbnail c 100 100 img).width = (thumbnailSize 100 100 img.width img.height).1 :=
    congrArg Prod.fst hsz
  have hh : (Thumbnail c 100 100 img).height = (thumbnailSize 100 100 img.width img.height).2 :=
    congrArg Prod.snd hsz
  obtain ⟨b1, b2, b3, b4, b5, b6⟩ := thumbnailSize_bounds img.width img.height hw0 hh0
  have hr := Resize_of_decode c fs file img fmt hDec
  refine ⟨hw ▸ b1, hw ▸ b2, hh ▸ b3, hh ▸ b4, hw ▸ b5, hh ▸ b6, ?_, ?_, hr, ?_⟩
  · intro h1 h2
    unfold Thumbnail
    simp [h1, h2]
  · intro hbig
    refine ⟨?_, ?_⟩
    · rw [hw, hh]
      exact thumbnailSize_scaled img.width img.height hw0 hh0 hbig
    · rw [hw, hh, Thumbnail_oversize c img hw0 hh0 hbig]
  · intro hOk
    cases hb : encodeBuffer c file.Type_ (Thumbnail c 100 100 img) with
    | none =>
      simp only [hb] at hr
      rw [hr] at hOk
      simp at hOk
    | some buff =>
      simp only [hb] at hr
      by_cases hlen : buff.length > 0
      · simp only [hlen, if_true] at hr
        cases hs : (SaveFile fs (thumbFile file buff)).err with
        | some e =>
          simp only [hs] at hr
          rw [hr] at hOk
          simp at hOk
        | none =>
          simp only [hs] at hr
          have hcont := SaveFile_ok_content fs (thumbFile file buff) hs
          refine ⟨buff, rfl, List.length_pos.1 hlen, ?_⟩
          rw [hr]
          exact hcont
      · simp only [hlen, if_false] at hr
        rw [hr] at hOk
        simp at hOk

/-- Witness of the amended C10: the 200 by 50 png gives a thumbnail of 100 by
25, stored on an empty substrate. -/
theorem Resize_thumbnail_bounded_witness :
    1 ≤ (Thumbnail sampleCodec 100 100 ⟨200, 50, [1, 2, 3]⟩).width ∧
    (Thumbnail sampleCodec 100 100 ⟨200, 50, [1, 2, 3]⟩).width ≤ 100 ∧
    1 ≤ (Thumbnail sampleCodec 100 100 ⟨200, 50, [1, 2, 3]⟩).height ∧
    (Thumbnail sampleCodec 100 100 ⟨200, 50, [1, 2, 3]⟩).height ≤ 100 ∧
    (Thumbnail sampleCodec 100 100 ⟨200, 50, [1, 2, 3]⟩).width ≤ 200 ∧
    (Thumbnail sampleCodec 100 100 ⟨200, 50, [1, 2, 3]⟩).height ≤ 50 ∧
    ((200 : Nat) ≤ 100 → (50 : Nat) ≤ 100 →
      Thumbnail sampleCodec 100 100 ⟨200, 50, [1, 2, 3]⟩ = ⟨200, 50, [1, 2, 3]⟩) ∧
    (¬ ((200 : Nat) ≤ 100 ∧ (50 : Nat) ≤ 100) →
      scaledToBox 100 100 200 50
        (Thumbnail sampleCodec 100 100 ⟨200, 50, [1, 2, 3]⟩).width
        (Thumbnail sampleCodec 100 100 ⟨200, 50, [1, 2, 3]⟩).height ∧
      (Thumbnail sampleCodec 100 100 ⟨200, 50, [1, 2, 3]⟩).pix
        = sampleCodec.resample (Thumbnail sampleCodec 100 100 ⟨200, 50, [1, 2, 3]⟩).width
            (Thumbnail sampleCodec 100 100 ⟨200, 50, [1, 2, 3]⟩).height
            ⟨200, 50, [1, 2, 3]⟩) ∧
    Resize sampleCodec emptyFs pngFile =
      (match encodeBuffer sampleCodec pngFile.Type_
          (Thumbnail sampleCodec 100 100 ⟨200, 50, [1, 2, 3]⟩) with
      | none => ⟨emptyFs, "", some "could not encode image"⟩
      | some buff =>
        if buff.length > 0 then
          match (SaveFile emptyFs (thumbFile pngFile buff)).err with
          | some err => ⟨(SaveFile emptyFs (thumbFile pngFile buff)).fs, "", some err⟩
          | none => ⟨(SaveFile emptyFs (thumbFile pngFile buff)).fs,
              (SaveFile emptyFs (thumbFile pngFile buff)).path, none⟩
        else ⟨emptyFs, "", some "could not resize image"⟩) ∧
    ((Resize sampleCodec emptyFs pngFile).err = none →
      ∃ buff, encodeBuffer sampleCodec pngFile.Type_
          (Thumbnail sampleCodec 100 100 ⟨200, 50, [1, 2, 3]⟩) = some buff ∧
        buff ≠ [] ∧
        (Resize sampleCodec emptyFs pngFile).fs.ReadFile (getSavePath ("thumb_" ++ pngFile.Name))
          = some (buff ++
              ((emptyFs.ReadFile (getSavePath ("thumb_" ++ pngFile.Name))).getD []).drop
                buff.length)) :=
  Resize_thumbnail_bounded sampleCodec emptyFs pngFile ⟨200, 50, [1, 2, 3]⟩ "png" (by rfl)
    (by decide) (by decide)

/-! ## Paths returned on success -/

theorem getSavePath_ne_empty (name : String) : getSavePath name ≠ "" := by
  intro h
  have hl := congrArg String.length h
  simp [getSavePath, String.length_append] at hl
  have h8 : "/images/".length = 8 := by decide
  omega

/-- A successful `SaveFile` returns the path of the name. -/
theorem SaveFile_path_of_ok (fs : Fs) (file : File) (hOk : (SaveFile fs file).err = none) :
    (SaveFile fs file).path = getSavePath file.Name := by
  unfold SaveFile at hOk ⊢
  by_cases hm : checkMimeType file.Type_ = true
  · simp only [hm, Bool.not_true, Bool.false_eq_true, if_false] at hOk ⊢
    cases ho : fs.OpenFile (getSavePath file.Name) (O_WRONLY ||| O_CREATE) 0o666 with
    | error e => simp [ho] at hOk
    | ok r =>
      obtain ⟨fs1, to_⟩ := r
      simp only [ho] at hOk ⊢
      cases hc : (ioCopy fs1 to_ file.Content).err with
      | some e => simp [hc] at hOk
      | none => rfl
  · simp [hm] at hOk

/-- The path and the error returned by `Resize`: an error comes with the empty
path, a success with the path of the thumbnail name. -/
theorem Resize_path (c : Codec) (fs : Fs) (file : File) :
    (∀ e, (Resize c fs file).err = some e → (Resize c fs file).path = "") ∧
    ((Resize c fs file).err = none →
      (Resize c fs file).path = getSavePath ("thumb_" ++ file.Name)) := by
  cases hd : c.decode file.Content with
  | error e1 =>
    have hr : Resize c fs file = ⟨fs, "", some e1⟩ := by
      unfold Resize
      simp only [hd]
    rw [hr]
    exact ⟨fun _ _ => rfl, fun h => by simp at h⟩
  | ok r =>
    obtain ⟨img, fmt⟩ := r
    have hr := Resize_of_decode c fs file img fmt hd
    cases hb : encodeBuffer c file.Type_ (Thumbnail c 100 100 img) with
    | none =>
      simp only [hb] at hr
      rw [hr]
      exact ⟨fun _ _ => rfl, fun h => by simp at h⟩
    | some buff =>
      simp only [hb] at hr
      by_cases hlen : buff.length > 0
      · simp only [hlen, if_true] at hr
        cases hs : (SaveFile fs (thumbFile file buff)).err with
        | none =>
          simp only [hs] at hr
          rw [hr]
          exact ⟨fun _ h => by simp at h, fun _ => SaveFile_path_of_ok fs _ hs⟩
        | some e2 =>
          simp only [hs] at hr
          rw [hr]
          exact ⟨fun _ _ => rfl, fun h => by simp at h⟩
      · simp only [hlen, if_false] at hr
        rw [hr]
        exact ⟨fun _ _ => rfl, fun h => by simp at h⟩

/-! ## The handlers -/

theorem errorResponse_status (mess : String) : (errorResponse mess).status ≠ StatusOK := by
  simp [errorResponse, StatusBadRequest, StatusOK]

/-- In the loop of `upload`, an error of `SaveFile` or of `Resize` ends the
request with `errorResponse`. -/
theorem uploadLoop_call_error (env : Web) (c : Codec) (fs : Fs) (file : FileHeader)
    (rest : List FileHeader) (paths : List FileDTO) (reader : Reader)
    (hOpen : file.Open = .ok reader) (hRead : (ReadAll reader).2 = none) :
    (∀ e, (SaveFile fs ⟨env.UnescapeString file.Filename, file.Size,
        env.DetectContentType (ReadAll reader).1, NewReader (ReadAll reader).1⟩).err = some e →
      (uploadLoop env c fs (file :: rest) paths).2
        = errorResponse ("could not save file: " ++ e)) ∧
    (∀ e, (SaveFile fs ⟨env.UnescapeString file.Filename, file.Size,
        env.DetectContentType (ReadAll reader).1, NewReader (ReadAll reader).1⟩).err = none →
      (Resize c (SaveFile fs ⟨env.UnescapeString file.Filename, file.Size,
        env.DetectContentType (ReadAll reader).1, NewReader (ReadAll reader).1⟩).fs
        ⟨env.UnescapeString file.Filename, file.Size,
        env.DetectContentType (ReadAll reader).1, NewReader (ReadAll reader).1⟩).err = some e →
      (uploadLoop env c fs (file :: rest) paths).2
        = errorResponse ("could not resize file: " ++ e)) := by
  constructor
  · intro e hs
    simp only [uploadLoop, hOpen, hRead, hs]
  · intro e hs hr
    simp only [uploadLoop, hOpen, hRead, hs, hr]

/-- A response of status 200 of the loop of `upload` lists, after the entries
collected before, only entries whose `Path` and `Resize` are not empty. -/
theorem uploadLoop_ok_entries (env : Web) (c : Codec) (files : List FileHeader) :
    ∀ (fs : Fs) (paths : List FileDTO),
      (uploadLoop env c fs files paths).2.status = StatusOK →
      ∃ added, (uploadLoop env c fs files paths).2.body = .paths (paths ++ added) ∧
        ∀ d ∈ added, d.Path ≠ "" ∧ d.Resize ≠ "" := by
  induction files with
  | nil =>
    intro fs paths _
    exact ⟨[], by simp [uploadLoop], by simp⟩
  | cons file rest ih =>
    intro fs paths hst
    unfold uploadLoop at hst ⊢
    cases ho : file.Open with
    | error e => simp only [ho] at hst; exact absurd hst (errorResponse_status _)
    | ok reader =>
      simp only [ho] at hst ⊢
      cases hr : (ReadAll reader).2 with
      | some e => simp only [hr] at hst; exact absurd hst (errorResponse_status _)
      | none =>
        simp only [hr] at hst ⊢
        cases hs : (SaveFile fs ⟨env.UnescapeString file.Filename, file.Size,
            env.DetectContentType (ReadAll reader).1, NewReader (ReadAll reader).1⟩).err with
        | some e => simp only [hs] at hst; exact absurd hst (errorResponse_status _)
        | none =>
          simp only [hs] at hst ⊢
          cases hz : (Resize c (SaveFile fs ⟨env.UnescapeString file.Filename, file.Size,
              env.DetectContentType (ReadAll reader).1, NewReader (ReadAll reader).1⟩).fs
              ⟨env.UnescapeString file.Filename, file.Size,
              env.DetectContentType (ReadAll reader).1, NewReader (ReadAll reader).1⟩).err with
          | some e => simp only [hz] at hst; exact absurd hst (errorResponse_status _)
          | none =>
            simp only [hz] at hst ⊢
            obtain ⟨added, hbody, hall⟩ := ih _ _ hst
            refine ⟨⟨env.UnescapeString file.Filename,
              (SaveFile fs ⟨env.UnescapeString file.Filename, file.Size,
                env.DetectContentType (ReadAll reader).1, NewReader (ReadAll reader).1⟩).path,
              (Resize c (SaveFile fs ⟨env.UnescapeString file.Filename, file.Size,
                env.DetectContentType (ReadAll reader).1, NewReader (ReadAll reader).1⟩).fs
                ⟨env.UnescapeString file.Filename, file.Size,
                env.DetectContentType (ReadAll reader).1, NewReader (ReadAll reader).1⟩).path⟩
              :: added, by rw [hbody]; simp, ?_⟩
            intro d hd
            rcases List.mem_cons.1 hd with h1 | h1
            · subst h1
              refine ⟨?_, ?_⟩
              · show (SaveFile fs _).path ≠ ""
                rw [SaveFile_path_of_ok fs _ hs]
                exact getSavePath_ne_empty _
              · show (Resize c _ _).path ≠ ""
                rw [(Resize_path c _ _).2 hz]
                exact getSavePath_ne_empty _
            · exact hall d h1

/-- In the loop of `json`, an error of `SaveFile` or of `Resize` ends the
request with `errorResponse`. -/
theorem jsonLoop_call_error (env : Web) (c : Codec) (fs : Fs) (file : JsonFile)
    (rest : List JsonFile) (paths : List FileDTO) (data : List Byte)
    (hDec : env.DecodeString (afterComma file.Content) = .ok data) :
    (∀ e, (SaveFile fs ⟨env.UnescapeString file.Name, file.Size, file.Type_,
        NewReader data⟩).err = some e →
      (jsonLoop env c fs (file :: rest) paths).2
        = errorResponse ("could not save file: " ++ e)) ∧
    (∀ e, (SaveFile fs ⟨env.UnescapeString file.Name, file.Size, file.Type_,
        NewReader data⟩).err = none →
      (Resize c (SaveFile fs ⟨env.UnescapeString file.Name, file.Size, file.Type_,
        NewReader data⟩).fs
        ⟨env.UnescapeString file.Name, file.Size, file.Type_, NewReader data⟩).err = some e →
      (jsonLoop env c fs (file :: rest) paths).2
        = errorResponse ("could not resize file: " ++ e)) := by
  constructor
  · intro e hs
    simp only [jsonLoop, hDec, hs]
  · intro e hs hr
    simp only [jsonLoop, hDec, hs, hr]

/-- A response of status 200 of the loop of `json` lists, after the entries
collected before, only entries whose `Path` and `Resize` are not empty. -/
theorem jsonLoop_ok_entries (env : Web) (c : Codec) (files : List JsonFile) :
    ∀ (fs : Fs) (paths : List FileDTO),
      (jsonLoop env c fs files paths).2.status = StatusOK →
      ∃ added, (jsonLoop env c fs files paths).2.body = .paths (paths ++ added) ∧
        ∀ d ∈ added, d.Path ≠ "" ∧ d.Resize ≠ "" := by
  induction files with
  | nil =>
    intro fs paths _
    exact ⟨[], by simp [jsonLoop], by simp⟩
  | cons file rest ih =>
    intro fs paths hst
    unfold jsonLoop at hst ⊢
    cases hd : env.DecodeString (afterComma file.Content) with
    | error e => simp only [hd] at hst; exact absurd hst (errorResponse_status _)
    | ok data =>
      simp only [hd] at hst ⊢
      cases hs : (SaveFile fs ⟨env.UnescapeString file.Name, file.Size, file.Type_,
          NewReader data⟩).err with
      | some e => simp only [hs] at hst; exact absurd hst (errorResponse_status _)
      | none =>
        simp only [hs] at hst ⊢
        cases hz : (Resize c (SaveFile fs ⟨env.UnescapeString file.Name, file.Size,
            file.Type_, NewReader data⟩).fs
            ⟨env.UnescapeString file.Name, file.Size, file.Type_, NewReader data⟩).err with
        | some e => simp only [hz] at hst; exact absurd hst (errorResponse_status _)
        | none =>
          simp only [hz] at hst ⊢
          obtain ⟨added, hbody, hall⟩ := ih _ _ hst
          refine ⟨⟨env.UnescapeString file.Name,
            (SaveFile fs ⟨env.UnescapeString file.Name, file.Size, file.Type_,
              NewReader data⟩).path,
            (Resize c (SaveFile fs ⟨env.UnescapeString file.Name, file.Size, file.Type_,
              NewReader data⟩).fs
              ⟨env.UnescapeString file.Name, file.Size, file.Type_, NewReader data⟩).path⟩
            :: added, by rw [hbody]; simp, ?_⟩
          intro d hd
          rcases List.mem_cons.1 hd with h1 | h1
          · subst h1
            refine ⟨?_, ?_⟩
            · show (SaveFile fs _).path ≠ ""
              rw [SaveFile_path_of_ok fs _ hs]
              exact getSavePath_ne_empty _
            · show (Resize c _ _).path ≠ ""
              rw [(Resize_path c _ _).2 hz]
              exact getSavePath_ne_empty _
          · exact hall d h1

/-- In `link`, an error of `SaveFile` ends the request with `errorResponse`,
but after an error of `Resize` the handler answers with status 200 and an
entry whose `Resize` is empty. -/
theorem link_call_error (env : Web) (c : Codec) (fs : Fs) (url : String) (body : Reader) :
    (∀ e, (SaveFile fs ⟨env.Base url, (ReadAll body).1.length,
        env.DetectContentType (ReadAll body).1, NewReader (ReadAll body).1⟩).err = some e →
      (link env c fs url (.ok body)).2 = errorResponse ("could not save file: " ++ e)) ∧
    (∀ e, (SaveFile fs ⟨env.Base url, (ReadAll body).1.length,
        env.DetectContentType (ReadAll body).1, NewReader (ReadAll body).1⟩).err = none →
      (Resize c (SaveFile fs ⟨env.Base url, (ReadAll body).1.length,
        env.DetectContentType (ReadAll body).1, NewReader (ReadAll body).1⟩).fs
        ⟨env.Base url, (ReadAll body).1.length,
        env.DetectContentType (ReadAll body).1, NewReader (ReadAll body).1⟩).err = some e →
      (link env c fs url (.ok body)).2
        = ⟨StatusOK, .paths [⟨env.Base url, getSavePath (env.Base url), ""⟩]⟩) := by
  constructor
  · intro e hs
    simp only [link, hs]
  · intro e hs hr
    have hp := SaveFile_path_of_ok fs _ hs
    have hq := (Resize_path c _ _).1 e hr
    simp only [link, hs, hp, hq, List.nil_append]

/-- C11, evaluated on the code: for the url "http://host/cut.png" and a body
that starts as a png and stops after two bytes, `link` builds the file
`cutFile`; `SaveFile` succeeds on it and `Resize` returns the error of the
decoder, yet `link` answers with status 200 and an entry whose "resize" is
empty.  For the same bytes `upload` and `json` answer with status 400. -/
theorem link_answers_200_after_failed_Resize :
    (⟨sampleWeb.Base "http://host/cut.png", (ReadAll cutBody).1.length,
      sampleWeb.DetectContentType (ReadAll cutBody).1, NewReader (ReadAll cutBody).1⟩ : File)
      = cutFile ∧
    (SaveFile emptyFs cutFile).err = none ∧
    (Resize sampleCodec (SaveFile emptyFs cutFile).fs cutFile).err
      = some "image: unknown format" ∧
    (link sampleWeb sampleCodec emptyFs "http://host/cut.png" (.ok cutBody)).2
      = ⟨200, .paths [⟨"cut.png", "/images/cut.png", ""⟩]⟩ ∧
    (upload sampleWeb sampleCodec emptyFs (.ok [⟨"cut.png", 2, .ok cutBody⟩])).2
      = ⟨400, .message "could not resize file: image: unknown format"⟩ ∧
    (json sampleWeb sampleCodec emptyFs
        (.ok [⟨"cut.png", 2, "image/png", "data:image/png;base64,\x89P"⟩])).2
      = ⟨400, .message "could not resize file: image: unknown format"⟩ := by
  decide

/-! ## The two type checks -/

/-- C12: the encoder switch of `Resize` has a case for a declared type exactly
when `checkMimeType` accepts it, which is for the three strings "image/jpeg",
"image/jpg" and "image/png" and nothing else ("image/asd", "image/123",
"IMAGE/PNG" and the empty string are refused).  Hence the file `Resize` hands
to `SaveFile` always passes the type check of `SaveFile`: every error of that
call is the error of its open or of its copy. -/
theorem encoder_switch_matches_checkMimeType (c : Codec) (fs : Fs) (file : File)
    (img : Image) :
    (∀ t, (encodeBuffer c t img).isSome = checkMimeType t) ∧
    (∀ t, checkMimeType t = true ↔ t = "image/jpeg" ∨ t = "image/jpg" ∨ t = "image/png") ∧
    checkMimeType "image/asd" = false ∧
    checkMimeType "image/123" = false ∧
    checkMimeType "IMAGE/PNG" = false ∧
    checkMimeType "" = false ∧
    ∀ buff, encodeBuffer c file.Type_ img = some buff →
      checkMimeType (thumbFile file buff).Type_ = true ∧
      ∀ e, (SaveFile fs (thumbFile file buff)).err = some e →
        fs.OpenFile (getSavePath ("thumb_" ++ file.Name)) (O_WRONLY ||| O_CREATE) 0o666
          = .error e ∨
        ∃ fs1 to_,
          fs.OpenFile (getSavePath ("thumb_" ++ file.Name)) (O_WRONLY ||| O_CREATE) 0o666
            = .ok (fs1, to_) ∧
          (ioCopy fs1 to_ ⟨buff, none⟩).err = some e := by
  have hiff : ∀ t, checkMimeType t = true ↔
      t = "image/jpeg" ∨ t = "image/jpg" ∨ t = "image/png" := by
    intro t
    rw [checkMimeType_eq_true_iff]
    simp [allowList]
  refine ⟨?_, hiff, by decide, by decide, by decide, by decide, ?_⟩
  · intro t
    cases hc : checkMimeType t with
    | true =>
      exact (encodeBuffer_isSome_iff c t img).2 ((checkMimeType_eq_true_iff t).1 hc)
    | false =>
      cases hb : (encodeBuffer c t img).isSome with
      | false => rfl
      | true =>
        have := (checkMimeType_eq_true_iff t).2 ((encodeBuffer_isSome_iff c t img).1 hb)
        rw [hc] at this
        exact absurd this (by decide)
  · intro buff hb
    have hm : checkMimeType (thumbFile file buff).Type_ = true :=
      (checkMimeType_eq_true_iff _).2
        ((encodeBuffer_isSome_iff c file.Type_ img).1 (by rw [hb]; rfl))
    refine ⟨hm, ?_⟩
    intro e he
    cases ho : fs.OpenFile (getSavePath ("thumb_" ++ file.Name)) (O_WRONLY ||| O_CREATE)
        0o666 with
    | error e2 =>
      left
      have hs : SaveFile fs (thumbFile file buff)
          = ⟨fs, (thumbFile file buff).Content, "", some e2⟩ := by
        unfold SaveFile
        simp only [hm, Bool.not_true, Bool.false_eq_true, if_false]
        simp only [thumbFile, ho]
      rw [hs] at he
      simp at he
      rw [he]
    | ok r =>
      obtain ⟨fs1, to_⟩ := r
      right
      refine ⟨fs1, to_, rfl, ?_⟩
      have hs := SaveFile_of_open fs fs1 (thumbFile file buff) to_ hm ho
      cases hc : (ioCopy fs1 to_ ⟨buff, none⟩).err with
      | none =>
        simp only [thumbFile, hc] at hs
        simp only [thumbFile] at he
        rw [hs] at he
        simp at he
      | some e3 =>
        simp only [thumbFile, hc] at hs
        simp only [thumbFile] at he
        rw [hs] at he
        simp at he
        rw [he]

/-- Witness of C12: the thumbnail of the sample png on a substrate that fails
after one byte passes the type check, and the error of the save is the one of
the copy. -/
theorem encoder_switch_matches_checkMimeType_witness :
    checkMimeType (thumbFile pngFile [137, 100, 25, 1, 2, 3]).Type_ = true ∧
    (tightFs.OpenFile (getSavePath ("thumb_" ++ pngFile.Name)) (O_WRONLY ||| O_CREATE) 0o666
        = .error "no space left on device" ∨
      ∃ fs1 to_,
        tightFs.OpenFile (getSavePath ("thumb_" ++ pngFile.Name)) (O_WRONLY ||| O_CREATE) 0o666
          = .ok (fs1, to_) ∧
        (ioCopy fs1 to_ ⟨[137, 100, 25, 1, 2, 3], none⟩).err
          = some "no space left on device") :=
  ⟨((encoder_switch_matches_checkMimeType sampleCodec tightFs pngFile
      ⟨100, 25, [1, 2, 3]⟩).2.2.2.2.2.2 [137, 100, 25, 1, 2, 3] (by decide)).1,
   ((encoder_switch_matches_checkMimeType sampleCodec tightFs pngFile
      ⟨100, 25, [1, 2, 3]⟩).2.2.2.2.2.2 [137, 100, 25, 1, 2, 3] (by decide)).2
      "no space left on device" (by decide)⟩

end Staply
